import Mathlib

/-!
# Temperature monitor with Wi-Fi (`temp_web.c`)

A shallow embedding of the control loop (`update_temperature_system`,
`set_pwm_percent`) and of the request handler (`user_request`,
`tcp_server_recv`) of `temp_web.c`.

Modelling conventions

* A C `double` or `float` is a `Dbl`: a finite rational or one of the IEEE-754
  special values `+inf`, `-inf`, `NaN`.  Arithmetic in `double` is exact on
  finite values: its rounding, its overflow and the sign of zero are not
  modelled (a quotient by zero takes the sign of the numerator, that is, the
  zero is `+0`, which is the only zero denominator the program can produce).
* The conversion of a `double` to `float`, which happens when a `double` is
  stored in one of the `float` variables, is `Dbl.toFloat`: rounding to the
  nearest binary32 number, ties to even, with overflow to an infinity.
* `log` of `math.h` is a parameter `ln : ℚ → ℚ` giving its value on positive
  finite arguments; the C standard fixes the other cases (`log 0 = -inf`,
  `log` of a negative number is `NaN`).  Where a result depends on the values
  of `log`, the assumption is `LogAccurate ln`: `ln` is within `1/10000` of the
  natural logarithm.
* Calls into the drivers (PWM, Wi-Fi chip GPIO, lwIP) are recorded as a list of
  `Action`s returned next to the new state.  `printf`, `malloc` and `free` are
  not recorded; `malloc` is assumed to succeed.  The result of `adc_read` is an
  argument of the tick; the payload of a receive callback is the `p->len` bytes
  at `p->payload`, one `Char` per byte.
-/

namespace TempWeb

/-! ## Floating-point values -/

/-- Value of a C `double` or `float`. -/
inductive Dbl where
  | fin (q : ℚ)
  | pinf
  | ninf
  | nan
deriving DecidableEq

namespace Dbl

/-- IEEE addition. -/
def add : Dbl → Dbl → Dbl
  | fin a, fin b => fin (a + b)
  | nan, _ => nan
  | _, nan => nan
  | pinf, ninf => nan
  | ninf, pinf => nan
  | pinf, _ => pinf
  | _, pinf => pinf
  | ninf, _ => ninf
  | _, ninf => ninf

/-- IEEE negation. -/
def neg : Dbl → Dbl
  | fin a => fin (-a)
  | pinf => ninf
  | ninf => pinf
  | nan => nan

/-- IEEE subtraction. -/
def sub (x y : Dbl) : Dbl := add x (neg y)

/-- Infinity carrying the sign of `a`; `NaN` when `a = 0`. -/
def signedInf (a : ℚ) : Dbl :=
  if a = 0 then nan else if 0 < a then pinf else ninf

/-- IEEE multiplication. -/
def mul : Dbl → Dbl → Dbl
  | fin a, fin b => fin (a * b)
  | nan, _ => nan
  | _, nan => nan
  | fin a, pinf => signedInf a
  | fin a, ninf => signedInf (-a)
  | pinf, fin b => signedInf b
  | ninf, fin b => signedInf (-b)
  | pinf, pinf => pinf
  | ninf, ninf => pinf
  | pinf, ninf => ninf
  | ninf, pinf => ninf

/-- IEEE division; a zero divisor is `+0`. -/
def div : Dbl → Dbl → Dbl
  | fin a, fin b => if b = 0 then signedInf a else fin (a / b)
  | nan, _ => nan
  | _, nan => nan
  | fin _, pinf => fin 0
  | fin _, ninf => fin 0
  | pinf, fin b => if 0 ≤ b then pinf else ninf
  | ninf, fin b => if 0 ≤ b then ninf else pinf
  | pinf, pinf => nan
  | pinf, ninf => nan
  | ninf, pinf => nan
  | ninf, ninf => nan

/-- The comparison `x < y` of C: false as soon as one side is `NaN`. -/
def lt : Dbl → Dbl → Bool
  | fin a, fin b => decide (a < b)
  | nan, _ => false
  | _, nan => false
  | pinf, _ => false
  | _, ninf => false
  | _, pinf => true
  | ninf, _ => true

/-- The comparison `x <= y` of C: false as soon as one side is `NaN`. -/
def le : Dbl → Dbl → Bool
  | fin a, fin b => decide (a ≤ b)
  | nan, _ => false
  | _, nan => false
  | ninf, _ => true
  | _, pinf => true
  | pinf, _ => false
  | _, ninf => false

/-- The function `log` of `math.h`, given its values `ln` on positive finite arguments. -/
def log (ln : ℚ → ℚ) : Dbl → Dbl
  | fin a => if 0 < a then fin (ln a) else if a = 0 then ninf else nan
  | pinf => pinf
  | ninf => nan
  | nan => nan

/-- Conversion to `uint16_t`: truncation toward zero.  Outside the range of
`uint16_t` (and for `NaN`) the conversion is undefined in C; it is given the
value `0` here and is never reached by the program. -/
def toUint16 : Dbl → ℕ
  | fin a => if 0 ≤ a ∧ a < 65536 then (Rat.floor a).toNat else 0
  | _ => 0

end Dbl

/-! ## Conversion to `float` -/

/-- Rounding to the nearest integer, ties to even. -/
def roundHalfEven (x : ℚ) : ℤ :=
  if x - ⌊x⌋ < 1 / 2 then ⌊x⌋
  else if 1 / 2 < x - ⌊x⌋ then ⌊x⌋ + 1
  else if ⌊x⌋ % 2 = 0 then ⌊x⌋ else ⌊x⌋ + 1

/-- Exponent of the binade of `q` in binary32; the subnormal numbers share the
exponent `-126`. -/
def expo32 (q : ℚ) : ℤ := max (Int.log 2 |q|) (-126)

/-- Rounding of a rational to a multiple of the binary32 unit in the last place
of its binade (24 significant bits), exponent unbounded above. -/
def round32 (q : ℚ) : ℚ :=
  roundHalfEven (q / 2 ^ (expo32 q - 23)) * 2 ^ (expo32 q - 23)

/-- Conversion of a `double` to `float`. -/
def Dbl.toFloat : Dbl → Dbl
  | .fin q =>
    if (2 : ℚ) ^ 128 ≤ round32 q then .pinf
    else if round32 q ≤ -(2 : ℚ) ^ 128 then .ninf
    else .fin (round32 q)
  | x => x

/-! ## Constants (`#define`s of `temp_web.c`) -/

def LED_PIN : ℕ := 16
def BETA : ℚ := 3435
def R0 : ℚ := 10000
def T0 : ℚ := 298.15
def R_FIXED : ℚ := 10000
def VCC : ℚ := 3.3
def PWM_WRAP : ℚ := 4095

/-- The byte that terminates a C string. -/
def NUL : Char := Char.ofNat 0

/-! ## System state and driver calls -/

/-- The arguments handed to `snprintf` in `tcp_server_recv`; together with the
fixed format string they determine the response. -/
structure Page where
  bg_color : String
  temp_color : String
  temperature : Dbl
  alarm_banner : String
  fan_status : String
  pwm : Dbl
deriving DecidableEq

/-- Driver calls issued by the program. -/
inductive Action where
  | pwm_set_gpio_level (gpio level : ℕ)
  | cyw43_arch_gpio_put (value : Bool)
  | tcp_write (html : Page)
  | tcp_output
  | tcp_close
  | tcp_recv_null
  | pbuf_free
deriving DecidableEq

/-- The three globals of `temp_web.c` and the level last driven on `WIFI_LED_PIN`. -/
structure Sys where
  current_temperature : Dbl
  current_pwm_percent : Dbl
  alarm_active : Bool
  wifi_led : Bool
deriving DecidableEq

/-- State at the start of the main loop: the initialisers of the globals and
`cyw43_arch_gpio_put(WIFI_LED_PIN, 0)` of `main`. -/
def init_state : Sys :=
  { current_temperature := .fin 0, current_pwm_percent := .fin 0,
    alarm_active := false, wifi_led := false }

/-- An example state: 65 degrees, full duty cycle, alarm raised. -/
def hot_state : Sys :=
  { current_temperature := .fin 65, current_pwm_percent := .fin 100,
    alarm_active := true, wifi_led := false }

/-! ## Control loop -/

/-- `set_pwm_percent`: clamps `percent` to `[0, 100]` and sets the PWM level. -/
def set_pwm_percent (gpio : ℕ) (percent : Dbl) : Action :=
  let percent := if percent.lt (.fin 0) then .fin 0 else percent
  let percent := if (Dbl.fin 100).lt percent then .fin 100 else percent
  let level := ((percent.div (.fin 100)).mul (.fin PWM_WRAP)).toUint16
  .pwm_set_gpio_level gpio level

/-- Lines 168-178 of `update_temperature_system`: the duty cycle, as the
`double` value of the right-hand side, and the alarm flag chosen for the
temperature `temp_c`. -/
def control_policy (temp_c : Dbl) : Dbl × Bool :=
  if (Dbl.fin 40).le temp_c && temp_c.le (.fin 60) then
    (((temp_c.sub (.fin 40)).div (.fin 20)).mul (.fin 100), false)
  else if (Dbl.fin 60).lt temp_c then
    (.fin 100, true)
  else
    (.fin 0, false)

/-- Output voltage of the divider computed from the raw ADC sample (line 160). -/
def v_out (adc_raw : ℕ) : Dbl :=
  ((Dbl.fin adc_raw).div (.fin 4095)).mul (.fin VCC)

/-- Line 163: resistance of the thermistor from the divider voltage. -/
def r_ntc_of (v : Dbl) : Dbl :=
  (Dbl.fin R_FIXED).mul (((Dbl.fin VCC).div v).sub (.fin 1))

/-- Lines 164-165: temperature in degrees Celsius from the divider voltage;
the argument of `log` is `r_ntc / R0`. -/
def temp_c_of (ln : ℚ → ℚ) (v : Dbl) : Dbl :=
  let temp_k := (Dbl.fin 1).div
    (((Dbl.fin 1).div (.fin T0)).add
      (((Dbl.fin 1).div (.fin BETA)).mul (Dbl.log ln ((r_ntc_of v).div (.fin R0)))))
  temp_k.sub (.fin 273.15)

/-- `update_temperature_system` on the sample `adc_raw` returned by `adc_read`.
The `double` `temp_c` decides the branch; it is converted to `float` when it is
stored in `current_temperature` (line 166), and so is the duty cycle when it is
stored in the `float` local `duty_percent` (lines 170-176). -/
def update_temperature_system (ln : ℚ → ℚ) (adc_raw : ℕ) (s : Sys) : Sys × List Action :=
  if (v_out adc_raw).le (.fin 0) then (s, [])
  else
    let temp_c := temp_c_of ln (v_out adc_raw)
    let r := control_policy temp_c
    let duty_percent := r.1.toFloat
    ({ s with current_temperature := temp_c.toFloat, current_pwm_percent := duty_percent,
              alarm_active := r.2 },
      [set_pwm_percent LED_PIN duty_percent])

/-! ## Request server -/

/-- The C string held in a buffer: the bytes before the first `NUL`. -/
def c_str (buf : List Char) : List Char :=
  buf.takeWhile (fun c => c != NUL)

/-- `strstr(haystack, needle) != NULL`: some position of the C string in
`haystack` starts with `needle`. -/
def strstr (haystack needle : List Char) : Bool :=
  (c_str haystack).tails.any (fun t => needle.isPrefixOf t)

def GET_WIFI_ON : List Char := "GET /wifi_on".toList
def GET_WIFI_OFF : List Char := "GET /wifi_off".toList

/-- `user_request` on the `NUL`-terminated buffer `request`. -/
def user_request (request : List Char) (s : Sys) : Sys × List Action :=
  if strstr request GET_WIFI_ON then
    ({ s with wifi_led := true }, [.cyw43_arch_gpio_put true])
  else if strstr request GET_WIFI_OFF then
    ({ s with wifi_led := false }, [.cyw43_arch_gpio_put false])
  else
    (s, [])

/-- Lines 211-224 of `tcp_server_recv`: background and text colour. -/
def colours (current_temperature : Dbl) : String × String :=
  if current_temperature.lt (.fin 20) then ("#e6f3ff", "#0066cc")
  else if current_temperature.lt (.fin 40) then ("#e6ffe6", "#00cc00")
  else if current_temperature.lt (.fin 60) then ("#fff2e6", "#ff9900")
  else ("#ffe6e6", "#cc0000")

/-- The alarm banner inserted in the page when `alarm_active` holds. -/
def ALARM_BANNER : String :=
  "<div class=\"alarm\">⚠️ TEMPERATURA ELEVADA! ⚠️</div>\n"

/-- Lines 210-246 of `tcp_server_recv`: the page rendered from the globals. -/
def render (s : Sys) : Page :=
  { bg_color := (colours s.current_temperature).1
    temp_color := (colours s.current_temperature).2
    temperature := s.current_temperature
    alarm_banner := if s.alarm_active then ALARM_BANNER else ""
    fan_status := if (Dbl.fin 0).lt s.current_pwm_percent then "Ligada" else "Desligada"
    pwm := s.current_pwm_percent }

/-- `tcp_server_recv`: `p` is the payload of the first pbuf, `none` for a null
pbuf (the peer closed the connection). -/
def tcp_server_recv (p : Option (List Char)) (s : Sys) : Sys × List Action :=
  match p with
  | none => (s, [.tcp_close, .tcp_recv_null])
  | some payload =>
    let request := payload ++ [NUL]
    let r := user_request request s
    (r.1, r.2 ++ [.tcp_write (render r.1), .tcp_output, .pbuf_free])

/-! ## Executions -/

/-- States reached from `init_state` by control ticks and receive callbacks,
in any order and with any inputs. -/
inductive Reachable (ln : ℚ → ℚ) : Sys → Prop where
  | init : Reachable ln init_state
  | tick (s : Sys) (adc_raw : ℕ) :
      Reachable ln s → Reachable ln (update_temperature_system ln adc_raw s).1
  | recv (s : Sys) (p : Option (List Char)) :
      Reachable ln s → Reachable ln (tcp_server_recv p s).1

/-- The invariant of the data model: the duty cycle lies in `[0, 100]` and the
alarm flag says whether the stored temperature exceeds 60 degrees. -/
def StateInv (s : Sys) : Prop :=
  (Dbl.fin 0).le s.current_pwm_percent = true ∧
  s.current_pwm_percent.le (.fin 100) = true ∧
  (s.alarm_active = true ↔ (Dbl.fin 60).lt s.current_temperature = true)

/-! ## Specification-side notions -/

/-- First line of a payload: the bytes before the first line feed. -/
def firstLine (payload : List Char) : List Char :=
  payload.takeWhile (fun c => c != '\n')

/-- Lines 160-165 of `update_temperature_system` over the real numbers, with
the real logarithm in place of `log`. -/
noncomputable def temp_c_real (adc_raw : ℕ) : ℝ :=
  let v_out : ℝ := ((adc_raw : ℝ) / 4095) * (VCC : ℝ)
  let r_ntc : ℝ := (R_FIXED : ℝ) * ((VCC : ℝ) / v_out - 1)
  let temp_k : ℝ := 1 / (1 / (T0 : ℝ) + (1 / (BETA : ℝ)) * Real.log (r_ntc / (R0 : ℝ)))
  temp_k - 273.15

/-- Accuracy assumed of the `log` of `math.h`: on `[1/4094, 4094]`, where the
arguments produced by the samples `1 .. 4094` lie, `ln` is within `1/10000` of
the natural logarithm. -/
def LogAccurate (ln : ℚ → ℚ) : Prop :=
  ∀ x : ℚ, 1 / 4094 ≤ x → x ≤ 4094 → |((ln x : ℚ) : ℝ) - Real.log (x : ℝ)| ≤ 1 / 10000

/-- A rational approximation of `log 2`. -/
def LN2 : ℚ := 287209 / 414355

/-- Twelve terms of the power series of `-log (1 - z)`. -/
def logSeries (z : ℚ) : ℚ :=
  ∑ i in Finset.range 12, z ^ (i + 1) / ((i : ℚ) + 1)

/-- A computable logarithm that meets `LogAccurate`: `x = 2 ^ k * m` with
`1 ≤ m < 2`, and `log m = log (1 + z) - log (1 - z)` for `z = (m - 1) / (m + 1)`. -/
def ln_approx (x : ℚ) : ℚ :=
  let k := Int.log 2 x
  let m := x / 2 ^ k
  let z := (m - 1) / (m + 1)
  k * LN2 + (logSeries z - logSeries (-z))

/-! ## Properties of the conversion to `float` -/

theorem floor_le_roundHalfEven (x : ℚ) : ⌊x⌋ ≤ roundHalfEven x := by
  unfold roundHalfEven
  split_ifs <;> omega

theorem roundHalfEven_le_floor_add_one (x : ℚ) : roundHalfEven x ≤ ⌊x⌋ + 1 := by
  unfold roundHalfEven
  split_ifs <;> omega

theorem roundHalfEven_intCast (n : ℤ) : roundHalfEven (n : ℚ) = n := by
  simp [roundHalfEven]

theorem roundHalfEven_mono {x y : ℚ} (h : x ≤ y) : roundHalfEven x ≤ roundHalfEven y := by
  have hf : ⌊x⌋ ≤ ⌊y⌋ := Int.floor_mono h
  rcases lt_or_eq_of_le hf with hlt | heq
  · have h1 := roundHalfEven_le_floor_add_one x
    have h2 := floor_le_roundHalfEven y
    omega
  · unfold roundHalfEven
    rw [← heq]
    have hxy : x - ⌊x⌋ ≤ y - ⌊x⌋ := by linarith
    split_ifs <;> first | omega | linarith


/-- A number within one half of an integer rounds to that integer. -/
theorem roundHalfEven_eq_of_near (x : ℚ) (n : ℤ) (h1 : (n : ℚ) - 1 / 2 < x)
    (h2 : x < (n : ℚ) + 1 / 2) : roundHalfEven x = n := by
  by_cases hx : (n : ℚ) ≤ x
  · have hfl : ⌊x⌋ = n := by
      rw [Int.floor_eq_iff]; constructor <;> linarith
    unfold roundHalfEven
    rw [hfl, if_pos (by linarith)]
  · push_neg at hx
    have hfl : ⌊x⌋ = n - 1 := by
      rw [Int.floor_eq_iff]; push_cast; constructor <;> linarith
    unfold roundHalfEven
    rw [hfl]
    push_cast
    rw [if_neg (by linarith), if_pos (by linarith)]
    ring

/-- The binade exponent of a number between two consecutive powers of two. -/
theorem expo32_eq (q : ℚ) (e : ℤ) (he : -126 ≤ e) (h1 : (2 : ℚ) ^ e ≤ |q|)
    (h2 : |q| < (2 : ℚ) ^ (e + 1)) : expo32 q = e := by
  have hpos : (0 : ℚ) < |q| := lt_of_lt_of_le (by positivity) h1
  have hlog : Int.log 2 |q| = e := by
    have ha : e ≤ Int.log 2 |q| := (Int.zpow_le_iff_le_log (by norm_num) hpos).mp (by exact_mod_cast h1)
    have hb : Int.log 2 |q| < e + 1 := (Int.lt_zpow_iff_log_lt (by norm_num) hpos).mp (by exact_mod_cast h2)
    omega
  rw [expo32, hlog]
  exact max_eq_left he

/-- Evaluation of `round32` from the binade and the nearest multiple of the ulp. -/
theorem round32_eval (q : ℚ) (e : ℤ) (n : ℤ) (he : -126 ≤ e) (h1 : (2 : ℚ) ^ e ≤ |q|)
    (h2 : |q| < (2 : ℚ) ^ (e + 1))
    (h3 : (n : ℚ) - 1 / 2 < q / 2 ^ (e - 23)) (h4 : q / 2 ^ (e - 23) < (n : ℚ) + 1 / 2) :
    round32 q = n * 2 ^ (e - 23) := by
  rw [round32, expo32_eq q e he h1 h2, roundHalfEven_eq_of_near _ n h3 h4]

theorem round32_nonneg (q : ℚ) (h : 0 ≤ q) : 0 ≤ round32 q := by
  unfold round32
  have hu : (0 : ℚ) < 2 ^ (expo32 q - 23) := by positivity
  have h0 : roundHalfEven ((0 : ℤ) : ℚ) ≤ roundHalfEven (q / 2 ^ (expo32 q - 23)) :=
    roundHalfEven_mono (by simpa using div_nonneg h hu.le)
  rw [roundHalfEven_intCast] at h0
  have : (0 : ℚ) ≤ (roundHalfEven (q / 2 ^ (expo32 q - 23)) : ℚ) := by exact_mod_cast h0
  positivity

theorem round32_nonpos (q : ℚ) (h : q ≤ 0) : round32 q ≤ 0 := by
  unfold round32
  have hu : (0 : ℚ) < 2 ^ (expo32 q - 23) := by positivity
  have h0 : roundHalfEven (q / 2 ^ (expo32 q - 23)) ≤ roundHalfEven ((0 : ℤ) : ℚ) :=
    roundHalfEven_mono (by simpa using div_nonpos_of_nonpos_of_nonneg h hu.le)
  rw [roundHalfEven_intCast] at h0
  have : (roundHalfEven (q / 2 ^ (expo32 q - 23)) : ℚ) ≤ 0 := by exact_mod_cast h0
  exact mul_nonpos_of_nonpos_of_nonneg this hu.le

theorem expo32_mono {a b : ℚ} (ha : 0 < a) (hab : a ≤ b) : expo32 a ≤ expo32 b := by
  unfold expo32
  have : Int.log 2 |a| ≤ Int.log 2 |b| := by
    rw [abs_of_pos ha, abs_of_pos (lt_of_lt_of_le ha hab)]
    exact Int.log_mono_right ha hab
  exact max_le_max this le_rfl

/-- A positive number is below the top of its binade. -/
theorem lt_two_zpow_expo32 {a : ℚ} : a < 2 ^ (expo32 a + 1) := by
  have h := Int.lt_zpow_succ_log_self (R := ℚ) (b := 2) (by norm_num) |a|
  have h2 : ((2 : ℕ) : ℚ) ^ (Int.log 2 |a| + 1) ≤ (2 : ℚ) ^ (expo32 a + 1) := by
    push_cast
    apply zpow_le_zpow_right₀ (by norm_num)
    unfold expo32
    have := le_max_left (Int.log 2 |a|) (-126)
    omega
  exact lt_of_le_of_lt (le_abs_self a) (lt_of_lt_of_le h h2)

theorem two_pow_24_mul (e : ℤ) : (16777216 : ℚ) * 2 ^ (e - 23) = 2 ^ (e + 1) := by
  have h : (16777216 : ℚ) = 2 ^ (24 : ℤ) := by norm_num
  rw [h, ← zpow_add₀ (by norm_num)]
  congr 1
  omega

theorem two_pow_23_mul (e : ℤ) : (8388608 : ℚ) * 2 ^ (e - 23) = 2 ^ e := by
  have h : (8388608 : ℚ) = 2 ^ (23 : ℤ) := by norm_num
  rw [h, ← zpow_add₀ (by norm_num)]
  congr 1
  omega

/-- The rounded value stays inside the closed binade. -/
theorem round32_le_top {a : ℚ} : round32 a ≤ 2 ^ (expo32 a + 1) := by
  unfold round32
  have hu : (0 : ℚ) < 2 ^ (expo32 a - 23) := by positivity
  have hle : a / 2 ^ (expo32 a - 23) ≤ ((16777216 : ℤ) : ℚ) := by
    rw [div_le_iff₀ hu]
    push_cast
    rw [two_pow_24_mul]
    exact lt_two_zpow_expo32.le
  have h := roundHalfEven_mono hle
  rw [roundHalfEven_intCast] at h
  have h' : (roundHalfEven (a / 2 ^ (expo32 a - 23)) : ℚ) ≤ 16777216 := by
    exact_mod_cast h
  calc (roundHalfEven (a / 2 ^ (expo32 a - 23)) : ℚ) * 2 ^ (expo32 a - 23)
      ≤ 16777216 * 2 ^ (expo32 a - 23) := mul_le_mul_of_nonneg_right h' hu.le
    _ = 2 ^ (expo32 a + 1) := two_pow_24_mul _

/-- A normal number rounds to at least the bottom of its binade. -/
theorem bottom_le_round32 {b : ℚ} (hb : 0 < b) (hn : -126 < expo32 b) :
    2 ^ (expo32 b) ≤ round32 b := by
  have hlog : expo32 b = Int.log 2 |b| := by
    unfold expo32 at hn ⊢
    rcases le_total (Int.log 2 |b|) (-126) with h | h
    · rw [max_eq_right h] at hn; omega
    · exact max_eq_left h
  have hbot : (2 : ℚ) ^ (expo32 b) ≤ b := by
    rw [hlog, abs_of_pos hb]
    have := Int.zpow_log_le_self (R := ℚ) (b := 2) (by norm_num) hb
    exact_mod_cast this
  unfold round32
  have hu : (0 : ℚ) < 2 ^ (expo32 b - 23) := by positivity
  have hle : ((8388608 : ℤ) : ℚ) ≤ b / 2 ^ (expo32 b - 23) := by
    rw [le_div_iff₀ hu]
    push_cast
    rw [two_pow_23_mul]
    exact hbot
  have h := roundHalfEven_mono hle
  rw [roundHalfEven_intCast] at h
  have h' : (8388608 : ℚ) ≤ (roundHalfEven (b / 2 ^ (expo32 b - 23)) : ℚ) := by
    exact_mod_cast h
  calc (2 : ℚ) ^ (expo32 b) = 8388608 * 2 ^ (expo32 b - 23) := (two_pow_23_mul _).symm
    _ ≤ (roundHalfEven (b / 2 ^ (expo32 b - 23)) : ℚ) * 2 ^ (expo32 b - 23) :=
      mul_le_mul_of_nonneg_right h' hu.le

/-- Rounding to binary32 is monotone on the positive numbers. -/
theorem round32_mono_pos {a b : ℚ} (ha : 0 < a) (hab : a ≤ b) : round32 a ≤ round32 b := by
  have hb : 0 < b := lt_of_lt_of_le ha hab
  rcases lt_or_eq_of_le (expo32_mono ha hab) with hlt | heq
  · have h1 := round32_le_top (a := a)
    have hn : -126 < expo32 b := by
      have : -126 ≤ expo32 a := le_max_right _ _
      omega
    have h2 := bottom_le_round32 hb hn
    have h3 : (2 : ℚ) ^ (expo32 a + 1) ≤ 2 ^ (expo32 b) :=
      zpow_le_zpow_right₀ (by norm_num) (by omega)
    linarith
  · unfold round32
    rw [heq]
    have hu : (0 : ℚ) < 2 ^ (expo32 b - 23) := by positivity
    have hle : a / 2 ^ (expo32 b - 23) ≤ b / 2 ^ (expo32 b - 23) :=
      div_le_div_of_nonneg_right hab hu.le
    have h := roundHalfEven_mono hle
    have h' : (roundHalfEven (a / 2 ^ (expo32 b - 23)) : ℚ) ≤
        (roundHalfEven (b / 2 ^ (expo32 b - 23)) : ℚ) := by exact_mod_cast h
    exact mul_le_mul_of_nonneg_right h' hu.le

/-- Rounding to binary32 is monotone below a non-negative number. -/
theorem round32_mono {a b : ℚ} (hb : 0 ≤ b) (hab : a ≤ b) : round32 a ≤ round32 b := by
  rcases le_or_lt a 0 with ha | ha
  · exact le_trans (round32_nonpos a ha) (round32_nonneg b hb)
  · exact round32_mono_pos ha hab

theorem round32_zero : round32 0 = 0 := by
  simp [round32, roundHalfEven]

theorem round32_60 : round32 60 = 60 := by
  rw [round32_eval 60 5 15728640 (by norm_num) (by norm_num) (by norm_num)
    (by norm_num) (by norm_num)]
  norm_num

theorem round32_100 : round32 100 = 100 := by
  rw [round32_eval 100 6 13107200 (by norm_num) (by norm_num) (by norm_num)
    (by norm_num) (by norm_num)]
  norm_num

theorem round32_above_60 : round32 (61441 / 1024) = 61441 / 1024 := by
  have habs : |(61441 / 1024 : ℚ)| = 61441 / 1024 := abs_of_pos (by norm_num)
  rw [round32_eval (61441 / 1024) 5 15728896 (by norm_num) (by rw [habs]; norm_num)
    (by rw [habs]; norm_num) (by norm_num) (by norm_num)]
  norm_num

/-! ## Properties of the control policy -/

@[simp] theorem Dbl.sub_fin (a b : ℚ) : (Dbl.fin a).sub (.fin b) = .fin (a - b) := by
  simp [Dbl.sub, Dbl.neg, Dbl.add, sub_eq_add_neg]

@[simp] theorem Dbl.mul_fin (a b : ℚ) : (Dbl.fin a).mul (.fin b) = .fin (a * b) := rfl

@[simp] theorem Dbl.add_fin (a b : ℚ) : (Dbl.fin a).add (.fin b) = .fin (a + b) := rfl

theorem Dbl.div_fin (a b : ℚ) (hb : b ≠ 0) : (Dbl.fin a).div (.fin b) = .fin (a / b) := by
  simp [Dbl.div, hb]

@[simp] theorem Dbl.lt_fin (a b : ℚ) : (Dbl.fin a).lt (.fin b) = decide (a < b) := rfl

@[simp] theorem Dbl.le_fin (a b : ℚ) : (Dbl.fin a).le (.fin b) = decide (a ≤ b) := rfl

/-- The policy on a finite temperature, in terms of rational arithmetic. -/
theorem control_policy_fin (q : ℚ) :
    control_policy (.fin q) =
      if 40 ≤ q ∧ q ≤ 60 then (.fin ((q - 40) / 20 * 100), false)
      else if 60 < q then (.fin 100, true) else (.fin 0, false) := by
  unfold control_policy
  by_cases h1 : 40 ≤ q <;> by_cases h2 : q ≤ 60 <;> by_cases h3 : 60 < q <;>
    simp [h1, h2, h3, Dbl.div_fin]

theorem control_policy_pinf : control_policy .pinf = (.fin 100, true) := by
  simp [control_policy, Dbl.le, Dbl.lt]

theorem control_policy_ninf : control_policy .ninf = (.fin 0, false) := by
  simp [control_policy, Dbl.le, Dbl.lt]

theorem control_policy_nan : control_policy .nan = (.fin 0, false) := by
  simp [control_policy, Dbl.le, Dbl.lt]

/-- The policy keeps the duty cycle in `[0, 100]` and raises the alarm exactly above 60. -/
theorem control_policy_spec (t : Dbl) :
    (Dbl.fin 0).le (control_policy t).1 = true ∧
    (control_policy t).1.le (.fin 100) = true ∧
    (control_policy t).2 = (Dbl.fin 60).lt t := by
  cases t with
  | fin q =>
    rw [control_policy_fin]
    by_cases h1 : 40 ≤ q ∧ q ≤ 60
    · obtain ⟨ha, hb⟩ := h1
      have h0 : (0 : ℚ) ≤ (q - 40) / 20 * 100 := by linarith
      have h100 : (q - 40) / 20 * 100 ≤ (100 : ℚ) := by linarith
      have h60 : ¬ (60 < q) := not_lt.mpr hb
      simp [ha, hb, h0, h100, h60]
    · by_cases h3 : 60 < q <;> simp [h1, h3]
  | pinf => simp [control_policy_pinf, Dbl.lt]
  | ninf => simp [control_policy_ninf, Dbl.lt]
  | nan => simp [control_policy_nan, Dbl.lt]

/-! ## Conversion of the stored values -/

theorem toFloat_fin (q : ℚ) (h1 : round32 q < 2 ^ 128) (h2 : -(2 : ℚ) ^ 128 < round32 q) :
    (Dbl.fin q).toFloat = .fin (round32 q) := by
  simp [Dbl.toFloat, not_le.mpr h1, not_le.mpr h2]

theorem toFloat_zero : (Dbl.fin 0).toFloat = .fin 0 := by
  rw [toFloat_fin 0 (by rw [round32_zero]; norm_num) (by rw [round32_zero]; norm_num),
    round32_zero]

/-- The binary32 number nearest to -273.15. -/
theorem round32_abs_zero : round32 (-273.15) = -8950579 / 32768 := by
  have habs : |(-273.15 : ℚ)| = 273.15 := by rw [abs_of_neg (by norm_num)]; norm_num
  rw [round32_eval (-273.15) 8 (-8950579) (by norm_num) (by rw [habs]; norm_num)
    (by rw [habs]; norm_num) (by norm_num) (by norm_num)]
  norm_num

theorem toFloat_abs_zero : (Dbl.fin (-273.15)).toFloat = .fin (-8950579 / 32768) := by
  rw [toFloat_fin (-273.15) (by rw [round32_abs_zero]; norm_num)
    (by rw [round32_abs_zero]; norm_num), round32_abs_zero]

/-- The conversion keeps a duty cycle of `[0, 100]` in `[0, 100]`. -/
theorem toFloat_range (d : Dbl) (h0 : (Dbl.fin 0).le d = true) (h1 : d.le (.fin 100) = true) :
    (Dbl.fin 0).le d.toFloat = true ∧ d.toFloat.le (.fin 100) = true := by
  cases d with
  | fin q =>
    simp only [Dbl.le_fin, decide_eq_true_eq] at h0 h1
    have hlo : 0 ≤ round32 q := round32_nonneg q h0
    have hhi : round32 q ≤ 100 := by
      have := round32_mono (a := q) (b := 100) (by norm_num) h1
      rwa [round32_100] at this
    rw [toFloat_fin q (lt_of_le_of_lt hhi (by norm_num)) (lt_of_lt_of_le (by norm_num) hlo)]
    simp [hlo, hhi]
  | pinf => simp [Dbl.le] at h1
  | ninf => simp [Dbl.le] at h0
  | nan => simp [Dbl.le] at h0

/-- A temperature of at most 60 is stored as at most 60. -/
theorem toFloat_not_above_60 (t : ℚ) (h : t ≤ 60) :
    (Dbl.fin 60).lt (Dbl.fin t).toFloat = false := by
  have hhi : round32 t ≤ 60 := by
    have := round32_mono (a := t) (b := 60) (by norm_num) h
    rwa [round32_60] at this
  have h128 : ¬ ((2 : ℚ) ^ 128 ≤ round32 t) := not_le.mpr (lt_of_le_of_lt hhi (by norm_num))
  simp only [Dbl.toFloat, if_neg h128]
  split_ifs
  · rfl
  · simp [not_lt.mpr hhi]

/-- A temperature of at least `60 + 2 ^ (-10)` is stored as more than 60. -/
theorem toFloat_above_60 (t : ℚ) (h : 61441 / 1024 ≤ t) :
    (Dbl.fin 60).lt (Dbl.fin t).toFloat = true := by
  have hlo : 61441 / 1024 ≤ round32 t := by
    have := round32_mono (a := 61441 / 1024) (b := t) (le_trans (by norm_num) h) h
    rwa [round32_above_60] at this
  have h60 : (60 : ℚ) < round32 t := lt_of_lt_of_le (by norm_num) hlo
  have hneg : ¬ (round32 t ≤ -(2 : ℚ) ^ 128) :=
    not_le.mpr (lt_trans (by norm_num) h60)
  simp only [Dbl.toFloat]
  split_ifs
  · rfl
  · simp [h60]

/-- When the temperature is not in the gap between 60 and the next binary32
number above it, the alarm flag agrees with the stored temperature. -/
theorem alarm_agrees (T : Dbl) (h : ∀ t : ℚ, T = .fin t → t ≤ 60 ∨ 61441 / 1024 ≤ t) :
    (control_policy T).2 = true ↔ (Dbl.fin 60).lt T.toFloat = true := by
  rw [(control_policy_spec T).2.2]
  cases T with
  | fin t =>
    rcases h t rfl with h1 | h1
    · rw [toFloat_not_above_60 t h1]
      simp [not_lt.mpr h1]
    · rw [toFloat_above_60 t h1]
      have : (60 : ℚ) < t := lt_of_lt_of_le (by norm_num) h1
      simp [this]
  | pinf => simp [Dbl.toFloat]
  | ninf => simp [Dbl.toFloat]
  | nan => simp [Dbl.toFloat]

/-! ## Properties of the sensor conversion -/

theorem v_out_eq (adc_raw : ℕ) : v_out adc_raw = .fin ((adc_raw : ℚ) / 4095 * VCC) := by
  simp [v_out, Dbl.div_fin]

/-- The divider voltage is non-positive exactly for the sample `0`. -/
theorem v_out_le_zero_iff (adc_raw : ℕ) :
    (v_out adc_raw).le (.fin 0) = true ↔ adc_raw = 0 := by
  rw [v_out_eq]
  simp only [Dbl.le_fin, decide_eq_true_eq, VCC]
  constructor
  · intro h
    by_contra h0
    have hpos : (0 : ℚ) < (adc_raw : ℚ) := by exact_mod_cast Nat.pos_of_ne_zero h0
    have : (0 : ℚ) < (adc_raw : ℚ) / 4095 * 3.3 := by positivity
    linarith
  · rintro rfl
    norm_num

/-- The argument of `log` for a non-zero sample. -/
theorem log_arg_eq (adc_raw : ℕ) (h : adc_raw ≠ 0) :
    (r_ntc_of (v_out adc_raw)).div (.fin R0) = .fin (4095 / (adc_raw : ℚ) - 1) := by
  have hpos : (adc_raw : ℚ) ≠ 0 := by exact_mod_cast h
  have hv : (adc_raw : ℚ) / 4095 * VCC ≠ 0 := by
    have h33 : (3.3 : ℚ) ≠ 0 := by norm_num
    simp [VCC, hpos, h33]
  rw [v_out_eq, r_ntc_of, Dbl.div_fin _ _ hv, Dbl.sub_fin, Dbl.mul_fin, Dbl.div_fin _ _ (by norm_num [R0])]
  congr 1
  simp only [R_FIXED, R0, VCC]
  field_simp
  ring

/-- A tick on the sample `0` returns at line 161. -/
theorem tick_skip (ln : ℚ → ℚ) (adc_raw : ℕ) (s : Sys)
    (h : (v_out adc_raw).le (.fin 0) = true) :
    update_temperature_system ln adc_raw s = (s, []) := by
  simp [update_temperature_system, h]

/-- A tick on a non-zero sample stores the temperature and the output of the
policy, both converted to `float`. -/
theorem tick_store (ln : ℚ → ℚ) (adc_raw : ℕ) (s : Sys) (h : adc_raw ≠ 0) :
    update_temperature_system ln adc_raw s =
      ({ s with
          current_temperature := (temp_c_of ln (v_out adc_raw)).toFloat
          current_pwm_percent := (control_policy (temp_c_of ln (v_out adc_raw))).1.toFloat
          alarm_active := (control_policy (temp_c_of ln (v_out adc_raw))).2 },
        [set_pwm_percent LED_PIN (control_policy (temp_c_of ln (v_out adc_raw))).1.toFloat]) := by
  have hv : ¬ ((v_out adc_raw).le (.fin 0) = true) := by
    rw [v_out_le_zero_iff]; exact h
  simp [update_temperature_system, hv]

/-- On the full-scale sample the argument of `log` is zero and the computed
temperature is absolute zero. -/
theorem temp_c_full_scale (ln : ℚ → ℚ) : temp_c_of ln (v_out 4095) = .fin (-273.15) := by
  have harg := log_arg_eq 4095 (by norm_num)
  have h0 : (4095 : ℚ) / ((4095 : ℕ) : ℚ) - 1 = 0 := by norm_num
  rw [h0] at harg
  simp only [temp_c_of, harg, Dbl.log]
  norm_num [Dbl.div, Dbl.mul, Dbl.add, Dbl.sub, Dbl.neg, Dbl.signedInf, T0, BETA]

/-- Below full scale the computed temperature is the Beta equation evaluated
with `ln`, provided its denominator does not vanish. -/
theorem temp_c_of_eq (ln : ℚ → ℚ) (n : ℕ) (h1 : 1 ≤ n) (h2 : n ≤ 4094)
    (hd : 1 / T0 + 1 / BETA * ln (4095 / (n : ℚ) - 1) ≠ 0) :
    temp_c_of ln (v_out n) =
      .fin (1 / (1 / T0 + 1 / BETA * ln (4095 / (n : ℚ) - 1)) - 273.15) := by
  have hn : (0 : ℚ) < n := by exact_mod_cast h1
  have hn2 : (n : ℚ) ≤ 4094 := by exact_mod_cast h2
  have hx : (0 : ℚ) < 4095 / (n : ℚ) - 1 := by
    rw [sub_pos, lt_div_iff₀ hn]; linarith
  have hT : T0 ≠ 0 := by norm_num [T0]
  have hB : BETA ≠ 0 := by norm_num [BETA]
  simp only [temp_c_of, log_arg_eq n (by omega), Dbl.log, if_pos hx, Dbl.div_fin _ _ hT,
    Dbl.div_fin _ _ hB, Dbl.mul_fin, Dbl.add_fin, Dbl.div_fin _ _ hd, Dbl.sub_fin]

/-- The duty command issued for a duty cycle of zero is level `0`. -/
theorem set_pwm_percent_zero : set_pwm_percent LED_PIN (.fin 0) = .pwm_set_gpio_level 16 0 := by
  have hfloor : Rat.floor 0 = 0 := by decide
  norm_num [set_pwm_percent, LED_PIN, Dbl.div, Dbl.toUint16, PWM_WRAP, hfloor]

/-! ## Properties of the executions -/

theorem stateInv_init : StateInv init_state := by
  simp [StateInv, init_state]

/-- A receive callback leaves the three globals as they were. -/
theorem recv_frame (p : Option (List Char)) (s : Sys) :
    (tcp_server_recv p s).1.current_temperature = s.current_temperature ∧
    (tcp_server_recv p s).1.current_pwm_percent = s.current_pwm_percent ∧
    (tcp_server_recv p s).1.alarm_active = s.alarm_active := by
  cases p with
  | none => simp [tcp_server_recv]
  | some payload =>
    simp only [tcp_server_recv, user_request]
    split_ifs <;> simp

theorem stateInv_recv (p : Option (List Char)) (s : Sys) (h : StateInv s) :
    StateInv (tcp_server_recv p s).1 := by
  obtain ⟨h1, h2, h3⟩ := recv_frame p s
  unfold StateInv at h ⊢
  rw [h1, h2, h3]
  exact h

/-! ## Properties of the request server -/

theorem strstr_iff (haystack needle : List Char) :
    strstr haystack needle = true ↔ List.IsInfix needle (c_str haystack) := by
  simp only [strstr, List.any_eq_true, List.mem_tails, List.isPrefixOf_iff_prefix]
  rw [List.infix_iff_prefix_suffix]
  constructor
  · rintro ⟨t, ht, hp⟩
    exact ⟨t, hp, ht⟩
  · rintro ⟨t, hp, ht⟩
    exact ⟨t, ht, hp⟩

/-- The terminator appended by `tcp_server_recv` does not change the C string. -/
theorem c_str_append_NUL (payload : List Char) : c_str (payload ++ [NUL]) = c_str payload := by
  induction payload with
  | nil => simp [c_str, List.takeWhile]
  | cons c cs ih =>
    unfold c_str at ih ⊢
    by_cases h : c = NUL
    · simp [List.takeWhile, h]
    · simp [List.takeWhile, h, ih]

theorem firstLine_within (l : List Char) : List.IsInfix (firstLine l) l :=
  (List.takeWhile_prefix _).isInfix

/-- The page does not depend on the level of the Wi-Fi LED. -/
theorem render_wifi_led (s : Sys) (b : Bool) : render { s with wifi_led := b } = render s := rfl

/-- A request whose C string contains `GET /wifi_on`. -/
theorem recv_wifi_on (s : Sys) (payload : List Char)
    (h : List.IsInfix GET_WIFI_ON (c_str payload)) :
    tcp_server_recv (some payload) s =
      ({ s with wifi_led := true },
        [.cyw43_arch_gpio_put true, .tcp_write (render s), .tcp_output, .pbuf_free]) := by
  have h1 : strstr (payload ++ [NUL]) GET_WIFI_ON = true := by
    rw [strstr_iff, c_str_append_NUL]; exact h
  simp [tcp_server_recv, user_request, h1, render_wifi_led]

/-- A request whose C string contains `GET /wifi_off` and not `GET /wifi_on`. -/
theorem recv_wifi_off (s : Sys) (payload : List Char)
    (hon : ¬ List.IsInfix GET_WIFI_ON (c_str payload))
    (h : List.IsInfix GET_WIFI_OFF (c_str payload)) :
    tcp_server_recv (some payload) s =
      ({ s with wifi_led := false },
        [.cyw43_arch_gpio_put false, .tcp_write (render s), .tcp_output, .pbuf_free]) := by
  have h1 : ¬ (strstr (payload ++ [NUL]) GET_WIFI_ON = true) := by
    rw [strstr_iff, c_str_append_NUL]; exact hon
  have h2 : strstr (payload ++ [NUL]) GET_WIFI_OFF = true := by
    rw [strstr_iff, c_str_append_NUL]; exact h
  simp [tcp_server_recv, user_request, h1, h2, render_wifi_led]

/-- A request whose C string contains neither command. -/
theorem recv_other (s : Sys) (payload : List Char)
    (hon : ¬ List.IsInfix GET_WIFI_ON (c_str payload))
    (hoff : ¬ List.IsInfix GET_WIFI_OFF (c_str payload)) :
    tcp_server_recv (some payload) s =
      (s, [.tcp_write (render s), .tcp_output, .pbuf_free]) := by
  have h1 : ¬ (strstr (payload ++ [NUL]) GET_WIFI_ON = true) := by
    rw [strstr_iff, c_str_append_NUL]; exact hon
  have h2 : ¬ (strstr (payload ++ [NUL]) GET_WIFI_OFF = true) := by
    rw [strstr_iff, c_str_append_NUL]; exact hoff
  simp [tcp_server_recv, user_request, h1, h2]

/-- Shape of the driver calls of a receive callback that carries a payload. -/
theorem recv_actions (s : Sys) (payload : List Char) :
    ∃ led : List Action,
      (led = [] ∨ led = [.cyw43_arch_gpio_put true] ∨ led = [.cyw43_arch_gpio_put false]) ∧
      (tcp_server_recv (some payload) s).2 =
        led ++ [.tcp_write (render s), .tcp_output, .pbuf_free] := by
  by_cases hon : List.IsInfix GET_WIFI_ON (c_str payload)
  · exact ⟨[.cyw43_arch_gpio_put true], by simp, by rw [recv_wifi_on s payload hon]; rfl⟩
  · by_cases hoff : List.IsInfix GET_WIFI_OFF (c_str payload)
    · exact ⟨[.cyw43_arch_gpio_put false], by simp, by rw [recv_wifi_off s payload hon hoff]; rfl⟩
    · exact ⟨[], by simp, by rw [recv_other s payload hon hoff]; rfl⟩

/-- Colours chosen for a finite temperature, in terms of rational comparisons. -/
theorem colours_fin (q : ℚ) :
    colours (.fin q) =
      if q < 20 then ("#e6f3ff", "#0066cc")
      else if q < 40 then ("#e6ffe6", "#00cc00")
      else if q < 60 then ("#fff2e6", "#ff9900")
      else ("#ffe6e6", "#cc0000") := by
  simp [colours]

/-- The colour table of the status page. -/
theorem colours_table (t : Dbl) :
    (t.lt (.fin 20) = true → colours t = ("#e6f3ff", "#0066cc")) ∧
    ((Dbl.fin 20).le t = true → t.lt (.fin 40) = true → colours t = ("#e6ffe6", "#00cc00")) ∧
    ((Dbl.fin 40).le t = true → t.lt (.fin 60) = true → colours t = ("#fff2e6", "#ff9900")) ∧
    ((Dbl.fin 60).le t = true → colours t = ("#ffe6e6", "#cc0000")) := by
  cases t with
  | fin q =>
    rw [colours_fin]
    simp only [Dbl.lt_fin, Dbl.le_fin, decide_eq_true_eq]
    refine ⟨?_, ?_, ?_, ?_⟩
    · intro h
      simp [h]
    · intro h1 h2
      have : ¬ q < 20 := not_lt.mpr h1
      simp [this, h2]
    · intro h1 h2
      have h20 : ¬ q < 20 := by linarith
      have h40 : ¬ q < 40 := not_lt.mpr h1
      simp [h20, h40, h2]
    · intro h1
      have h20 : ¬ q < 20 := by linarith
      have h40 : ¬ q < 40 := by linarith
      have h60 : ¬ q < 60 := not_lt.mpr h1
      simp [h20, h40, h60]
  | pinf => simp [colours, Dbl.lt, Dbl.le]
  | ninf => simp [colours, Dbl.lt, Dbl.le]
  | nan => simp [colours, Dbl.lt, Dbl.le]

theorem alarm_banner_ne_empty : ALARM_BANNER ≠ "" := by decide

/-! ## The conversion over the real numbers -/

/-- The real-valued temperature in closed form. -/
theorem temp_c_real_eq (n : ℕ) (h : n ≠ 0) :
    temp_c_real n =
      1 / (1 / 298.15 + (1 / 3435) * Real.log (4095 / (n : ℝ) - 1)) - 273.15 := by
  have hn : (n : ℝ) ≠ 0 := by exact_mod_cast h
  have harg : (10000 : ℝ) * (3.3 / ((n : ℝ) / 4095 * 3.3) - 1) / 10000 = 4095 / (n : ℝ) - 1 := by
    field_simp
    ring
  simp only [temp_c_real, VCC, R_FIXED, T0, BETA, R0]
  push_cast
  rw [harg]

theorem log_4094_lt : Real.log 4094 < 8.32 := by
  have h2 : Real.log 2 < 0.6931471808 := Real.log_two_lt_d9
  have h4096 : Real.log 4096 = 12 * Real.log 2 := by
    rw [show (4096 : ℝ) = 2 ^ 12 by norm_num, Real.log_pow]; norm_num
  have hlt : Real.log 4094 < Real.log 4096 := Real.log_lt_log (by norm_num) (by norm_num)
  linarith

/-- The denominator of the Beta equation is positive on `1 .. 4094`. -/
theorem denom_pos (n : ℕ) (h1 : 1 ≤ n) (h2 : n ≤ 4094) :
    0 < 1 / (298.15 : ℝ) + (1 / 3435) * Real.log (4095 / (n : ℝ) - 1) := by
  have hn : (0 : ℝ) < n := by exact_mod_cast h1
  have hn2 : (n : ℝ) ≤ 4094 := by exact_mod_cast h2
  have hx : (1 : ℝ) / 4094 ≤ 4095 / (n : ℝ) - 1 := by
    rw [le_sub_iff_add_le, div_add_one (by norm_num), div_le_div_iff₀ (by norm_num) hn]
    nlinarith
  have hlog : Real.log (1 / 4094) ≤ Real.log (4095 / (n : ℝ) - 1) :=
    Real.log_le_log (by norm_num) hx
  have h3 : Real.log ((1 : ℝ) / 4094) = - Real.log 4094 := by
    rw [one_div, Real.log_inv]
  have h4 := log_4094_lt
  rw [h3] at hlog
  have : (-8.32 : ℝ) < Real.log (4095 / (n : ℝ) - 1) := by linarith
  have h5 : (1 / 3435 : ℝ) * (-8.32) < (1 / 3435) * Real.log (4095 / (n : ℝ) - 1) := by
    apply mul_lt_mul_of_pos_left this (by norm_num)
  have h6 : (0 : ℝ) < 1 / 298.15 + (1 / 3435) * (-8.32) := by norm_num
  linarith

/-- The real-valued temperature rises with the sample. -/
theorem temp_c_real_lt (a b : ℕ) (h1 : 1 ≤ a) (hab : a < b) (h2 : b ≤ 4094) :
    temp_c_real a < temp_c_real b := by
  have ha0 : a ≠ 0 := by omega
  have hb0 : b ≠ 0 := by omega
  rw [temp_c_real_eq a ha0, temp_c_real_eq b hb0]
  have hapos : (0 : ℝ) < a := by exact_mod_cast h1
  have hbpos : (0 : ℝ) < b := by exact_mod_cast (by omega : 0 < b)
  have hab2 : (a : ℝ) < b := by exact_mod_cast hab
  have hb2 : (b : ℝ) ≤ 4094 := by exact_mod_cast h2
  have hxb : (0 : ℝ) < 4095 / (b : ℝ) - 1 := by
    rw [sub_pos, lt_div_iff₀ hbpos]; linarith
  have hx : 4095 / (b : ℝ) - 1 < 4095 / (a : ℝ) - 1 := by
    have : 4095 / (b : ℝ) < 4095 / (a : ℝ) := div_lt_div_of_pos_left (by norm_num) hapos hab2
    linarith
  have hlog := Real.log_lt_log hxb hx
  have hD : 1 / (298.15 : ℝ) + (1 / 3435) * Real.log (4095 / (b : ℝ) - 1) <
      1 / (298.15 : ℝ) + (1 / 3435) * Real.log (4095 / (a : ℝ) - 1) := by
    have := mul_lt_mul_of_pos_left hlog (by norm_num : (0 : ℝ) < 1 / 3435)
    linarith
  have hDb := denom_pos b (by omega) h2
  have := one_div_lt_one_div_of_lt hDb hD
  linarith

/-! ## Accuracy of the logarithm and the threshold of the alarm -/

theorem exp_lower : (3154 : ℝ) / 941 ≤ Real.exp (1.2096) := by
  have h := Real.sum_le_exp_of_nonneg (x := 1.2096) (by norm_num) 12
  refine le_trans ?_ h
  simp only [Finset.sum_range_succ, Finset.sum_range_zero, Nat.factorial]
  norm_num

theorem log_lower : -1.2096 ≤ Real.log (941 / 3154) := by
  rw [Real.le_log_iff_exp_le (by norm_num), Real.exp_neg]
  rw [inv_le_comm₀ (Real.exp_pos _) (by norm_num)]
  have := exp_lower
  norm_num at this ⊢
  linarith

theorem exp_upper : Real.exp (1.2108) ≤ (3155 : ℝ) / 940 := by
  have h := Real.exp_bound' (x := 0.6054) (by norm_num) (by norm_num) (n := 12) (by norm_num)
  have h2 : Real.exp (1.2108) = Real.exp 0.6054 * Real.exp 0.6054 := by
    rw [← Real.exp_add]; norm_num
  rw [h2]
  have hpos := Real.exp_pos 0.6054
  simp only [Finset.sum_range_succ, Finset.sum_range_zero, Nat.factorial] at h
  norm_num at h
  nlinarith

theorem log_upper : Real.log (940 / 3155) ≤ -1.2108 := by
  rw [Real.log_le_iff_le_exp (by norm_num), Real.exp_neg]
  rw [le_inv_comm₀ (by norm_num) (Real.exp_pos _)]
  have := exp_upper
  norm_num at this ⊢
  linarith

theorem logSeries_cast (z : ℚ) :
    ((logSeries z : ℚ) : ℝ) = ∑ i in Finset.range 12, (z : ℝ) ^ (i + 1) / ((i : ℝ) + 1) := by
  simp [logSeries]

theorem series_tail_bound (t : ℝ) (h : |t| ≤ 1 / 3) : |t| ^ 13 / (1 - |t|) ≤ 1 / 1000000 := by
  have h0 : 0 ≤ |t| := abs_nonneg t
  have hp : |t| ^ 13 ≤ (1 / 3 : ℝ) ^ 13 := pow_le_pow_left₀ h0 h 13
  have hd : (2 / 3 : ℝ) ≤ 1 - |t| := by linarith
  rw [div_le_iff₀ (by linarith)]
  have : (1 / 3 : ℝ) ^ 13 ≤ 1 / 1000000 * (2 / 3) := by norm_num
  nlinarith

/-- On `[1/4094, 4094]` the approximation is within `1/10000` of the logarithm. -/
theorem ln_approx_near (x : ℚ) (h1 : 1 / 4094 ≤ x) (h2 : x ≤ 4094) :
    |((ln_approx x : ℚ) : ℝ) - Real.log (x : ℝ)| ≤ 1 / 10000 := by
  have hx : (0 : ℚ) < x := lt_of_lt_of_le (by norm_num) h1
  have hk1 : (2 : ℚ) ^ (Int.log 2 x) ≤ x := by
    have := Int.zpow_log_le_self (R := ℚ) (b := 2) (by norm_num) hx
    exact_mod_cast this
  have hk2 : x < (2 : ℚ) ^ (Int.log 2 x + 1) := by
    have := Int.lt_zpow_succ_log_self (R := ℚ) (b := 2) (by norm_num) x
    exact_mod_cast this
  have hkl : -12 ≤ Int.log 2 x := by
    apply (Int.zpow_le_iff_le_log (R := ℚ) (b := 2) (by norm_num) hx).mp
    refine le_trans ?_ h1
    norm_num
  have hku : Int.log 2 x < 12 := by
    apply (Int.lt_zpow_iff_log_lt (R := ℚ) (b := 2) (by norm_num) hx).mp
    refine lt_of_le_of_lt h2 ?_
    norm_num
  obtain ⟨k, hk⟩ : ∃ k : ℤ, k = Int.log 2 x := ⟨_, rfl⟩
  rw [← hk] at hk1 hk2 hkl hku
  have hpk : (0 : ℚ) < 2 ^ k := by positivity
  obtain ⟨m, hm⟩ : ∃ m : ℚ, m = x / 2 ^ k := ⟨_, rfl⟩
  have hm1 : 1 ≤ m := by rw [hm, le_div_iff₀ hpk]; linarith
  have hm2 : m < 2 := by
    rw [hm, div_lt_iff₀ hpk]
    have : (2 : ℚ) ^ (k + 1) = 2 * 2 ^ k := by rw [zpow_add_one₀ (by norm_num)]; ring
    linarith
  obtain ⟨z, hz⟩ : ∃ z : ℚ, z = (m - 1) / (m + 1) := ⟨_, rfl⟩
  have hz0 : 0 ≤ z := by rw [hz]; exact div_nonneg (by linarith) (by linarith)
  have hz1 : z ≤ 1 / 3 := by
    rw [hz, div_le_iff₀ (by linarith)]; linarith
  have hval : ln_approx x = k * LN2 + (logSeries z - logSeries (-z)) := by
    rw [hz, hm, hk]; rfl
  -- the real side
  have hmR : (1 : ℝ) ≤ (m : ℝ) := by exact_mod_cast hm1
  have hzR0 : (0 : ℝ) ≤ (z : ℝ) := by exact_mod_cast hz0
  have hzR1 : (z : ℝ) ≤ 1 / 3 := by
    have := (Rat.cast_le (K := ℝ)).mpr hz1
    push_cast at this
    exact this
  have hxm : (x : ℝ) = (2 : ℝ) ^ k * (m : ℝ) := by
    have : x = 2 ^ k * m := by rw [hm]; field_simp
    have := congrArg (Rat.cast : ℚ → ℝ) this
    push_cast at this
    exact this
  have hlogx : Real.log (x : ℝ) = k * Real.log 2 + Real.log (m : ℝ) := by
    rw [hxm, Real.log_mul (by positivity) (by linarith), Real.log_zpow]
  have hmz : (m : ℝ) = (1 + (z : ℝ)) / (1 - (z : ℝ)) := by
    have : m = (1 + z) / (1 - z) := by
      rw [hz]
      field_simp
      ring
    have := congrArg (Rat.cast : ℚ → ℝ) this
    push_cast at this
    exact this
  have hlogm : Real.log (m : ℝ) = Real.log (1 + (z : ℝ)) - Real.log (1 - (z : ℝ)) := by
    rw [hmz, Real.log_div (by linarith) (by linarith)]
  have habs : |(z : ℝ)| ≤ 1 / 3 := by rw [abs_of_nonneg hzR0]; exact hzR1
  have habs' : |(-(z : ℝ))| ≤ 1 / 3 := by rw [abs_neg]; exact habs
  have e1 := Real.abs_log_sub_add_sum_range_le (x := (z : ℝ)) (by linarith) 12
  have e2 := Real.abs_log_sub_add_sum_range_le (x := -(z : ℝ)) (by linarith) 12
  have t1 := series_tail_bound _ habs
  have t2 := series_tail_bound _ habs'
  have e3 := Real.log_two_near_10
  rw [sub_neg_eq_add] at e2
  have c1 := logSeries_cast z
  have c2 := logSeries_cast (-z)
  push_cast at c2
  have hkR : |(k : ℝ)| ≤ 12 := by
    rw [abs_le]
    constructor
    · exact_mod_cast hkl
    · exact_mod_cast hku.le
  have d1 : |(k : ℝ) * ((LN2 : ℚ) : ℝ) - k * Real.log 2| ≤ 12 * (1 / 10 ^ 10) := by
    have : (k : ℝ) * ((LN2 : ℚ) : ℝ) - k * Real.log 2 = -(k * (Real.log 2 - 287209 / 414355)) := by
      simp only [LN2]; push_cast; ring
    rw [this, abs_neg, abs_mul]
    exact mul_le_mul hkR e3 (abs_nonneg _) (by norm_num)
  rw [hval, hlogx, hlogm]
  push_cast
  rw [c1, c2]
  rw [abs_le] at e1 e2 d1 ⊢
  constructor <;> linarith [e1.1, e1.2, e2.1, e2.2, d1.1, d1.2]


/-- What `LogAccurate` gives at the argument `4095 / n - 1` of the sample `n`:
a lower bound for every sample, a sharper lower bound up to the sample 3154
and an upper bound from the sample 3155 on. -/
theorem ln_bounds (ln : ℚ → ℚ) (hln : LogAccurate ln) (n : ℕ) (h1 : 1 ≤ n) (h2 : n ≤ 4094) :
    -833 / 100 ≤ ln (4095 / (n : ℚ) - 1) ∧
    (n ≤ 3154 → -12097 / 10000 ≤ ln (4095 / (n : ℚ) - 1)) ∧
    (3155 ≤ n → ln (4095 / (n : ℚ) - 1) ≤ -12107 / 10000) := by
  have hn : (0 : ℚ) < n := by exact_mod_cast h1
  have hn2 : (n : ℚ) ≤ 4094 := by exact_mod_cast h2
  obtain ⟨x, hx⟩ : ∃ x : ℚ, x = 4095 / (n : ℚ) - 1 := ⟨_, rfl⟩
  rw [← hx]
  have hxlo : 1 / 4094 ≤ x := by
    rw [hx, le_sub_iff_add_le, le_div_iff₀ hn]; linarith
  have hxhi : x ≤ 4094 := by
    have hn1 : (1 : ℚ) ≤ n := by exact_mod_cast h1
    rw [hx, sub_le_iff_le_add, div_le_iff₀ hn]; linarith
  have hacc := abs_le.mp (hln x hxlo hxhi)
  have hxR : (1 / 4094 : ℝ) ≤ (x : ℝ) := by
    have := (Rat.cast_le (K := ℝ)).mpr hxlo
    push_cast at this
    exact this
  have hlog0 : -8.32 < Real.log (x : ℝ) := by
    have h3 : Real.log ((1 : ℝ) / 4094) = - Real.log 4094 := by
      rw [one_div, Real.log_inv]
    have h4 := Real.log_le_log (by norm_num) hxR
    have h5 := log_4094_lt
    linarith
  refine ⟨?_, ?_, ?_⟩
  · apply (Rat.cast_le (K := ℝ)).mp
    push_cast
    linarith [hacc.1]
  · intro hle
    have hq : (941 / 3154 : ℚ) ≤ x := by
      have : (n : ℚ) ≤ 3154 := by exact_mod_cast hle
      rw [hx, le_sub_iff_add_le, le_div_iff₀ hn]; linarith
    have hR : (941 / 3154 : ℝ) ≤ (x : ℝ) := by
      have := (Rat.cast_le (K := ℝ)).mpr hq
      push_cast at this
      exact this
    have h4 := Real.log_le_log (by norm_num) hR
    have h5 := log_lower
    apply (Rat.cast_le (K := ℝ)).mp
    push_cast
    linarith [hacc.1]
  · intro hge
    have hq : x ≤ (940 / 3155 : ℚ) := by
      have : (3155 : ℚ) ≤ n := by exact_mod_cast hge
      rw [hx, sub_le_iff_le_add, div_le_iff₀ hn]; linarith
    have hR : (x : ℝ) ≤ (940 / 3155 : ℝ) := by
      have := (Rat.cast_le (K := ℝ)).mpr hq
      push_cast at this
      exact this
    have hxpos : (0 : ℝ) < (x : ℝ) := lt_of_lt_of_le (by norm_num) hxR
    have h4 := Real.log_le_log hxpos hR
    have h5 := log_upper
    apply (Rat.cast_le (K := ℝ)).mp
    push_cast
    linarith [hacc.2]

/-- With an accurate logarithm no sample gives a temperature in the gap between
60 and `60 + 2 ^ (-10)`: up to the sample 3154 the temperature is at most 60,
from 3155 on it is at least `60 + 2 ^ (-10)`. -/
theorem temp_gap (ln : ℚ → ℚ) (hln : LogAccurate ln) (n : ℕ) (h1 : 1 ≤ n) (h2 : n ≤ 4094) :
    ∃ t : ℚ, temp_c_of ln (v_out n) = .fin t ∧
      (n ≤ 3154 → t ≤ 60) ∧ (3155 ≤ n → 61441 / 1024 ≤ t) := by
  obtain ⟨hb0, hb1, hb2⟩ := ln_bounds ln hln n h1 h2
  obtain ⟨L, hL⟩ : ∃ L : ℚ, L = ln (4095 / (n : ℚ) - 1) := ⟨_, rfl⟩
  rw [← hL] at hb0 hb1 hb2
  have hD : 0 < 1 / T0 + 1 / BETA * L := by
    simp only [T0, BETA]
    linarith
  refine ⟨1 / (1 / T0 + 1 / BETA * L) - 273.15, ?_, ?_, ?_⟩
  · rw [hL] at hD ⊢
    exact temp_c_of_eq ln n h1 h2 hD.ne'
  · intro hle
    have hL1 := hb1 hle
    have : 1 / (1 / T0 + 1 / BETA * L) ≤ 333.15 := by
      rw [div_le_iff₀ hD]
      simp only [T0, BETA]
      linarith
    linarith
  · intro hge
    have hL2 := hb2 hge
    have : 61441 / 1024 + 273.15 ≤ 1 / (1 / T0 + 1 / BETA * L) := by
      rw [le_div_iff₀ hD]
      simp only [T0, BETA]
      linarith
    linarith

/-- Beyond full scale the argument of `log` is negative and the temperature is `NaN`. -/
theorem temp_c_beyond_full_scale (ln : ℚ → ℚ) (n : ℕ) (h : 4095 < n) :
    temp_c_of ln (v_out n) = .nan := by
  have hn : (4095 : ℚ) < n := by exact_mod_cast h
  have hpos : (0 : ℚ) < n := by linarith
  have hneg : 4095 / (n : ℚ) - 1 < 0 := by
    rw [sub_neg, div_lt_one hpos]; exact hn
  have hT : T0 ≠ 0 := by norm_num [T0]
  have hB : BETA ≠ 0 := by norm_num [BETA]
  have hlog : Dbl.log ln (.fin (4095 / (n : ℚ) - 1)) = .nan := by
    simp only [Dbl.log, if_neg (not_lt.mpr hneg.le), if_neg hneg.ne]
  simp only [temp_c_of]
  rw [log_arg_eq n (by omega), hlog, Dbl.div_fin _ _ hT, Dbl.div_fin _ _ hB]
  simp only [Dbl.mul, Dbl.add, Dbl.div, Dbl.sub, Dbl.neg]

/-- With an accurate logarithm the temperature of no sample lies in the gap. -/
theorem temp_no_gap (ln : ℚ → ℚ) (hln : LogAccurate ln) (n : ℕ) (h0 : n ≠ 0) (t : ℚ)
    (ht : temp_c_of ln (v_out n) = .fin t) : t ≤ 60 ∨ 61441 / 1024 ≤ t := by
  rcases Nat.lt_or_ge 4095 n with hbig | hsmall
  · rw [temp_c_beyond_full_scale ln n hbig] at ht
    exact absurd ht (by simp)
  · rcases Nat.eq_or_lt_of_le hsmall with heq | hlt
    · subst heq
      rw [temp_c_full_scale] at ht
      left
      have := Dbl.fin.inj ht
      rw [← this]
      norm_num
    · obtain ⟨t', ht', hlo, hhi⟩ := temp_gap ln hln n (by omega) (by omega)
      rw [ht'] at ht
      have := Dbl.fin.inj ht
      subst this
      rcases Nat.lt_or_ge 3154 n with h | h
      · exact Or.inr (hhi h)
      · exact Or.inl (hlo h)

/-! ## Invariants of the executions -/

/-- In every reachable state the duty cycle lies in `[0, 100]`. -/
theorem duty_range_of_reachable (ln : ℚ → ℚ) (s : Sys) (h : Reachable ln s) :
    (Dbl.fin 0).le s.current_pwm_percent = true ∧
    s.current_pwm_percent.le (.fin 100) = true := by
  induction h with
  | init => simp [init_state]
  | tick s adc_raw _ ih =>
    by_cases h0 : adc_raw = 0
    · rw [tick_skip ln adc_raw s ((v_out_le_zero_iff adc_raw).mpr h0)]
      exact ih
    · rw [tick_store ln adc_raw s h0]
      obtain ⟨h1, h2, _⟩ := control_policy_spec (temp_c_of ln (v_out adc_raw))
      exact toFloat_range _ h1 h2
  | recv s p _ ih =>
    rw [(recv_frame p s).2.1]
    exact ih

/-- With an accurate logarithm, in every reachable state the alarm flag is set
exactly when the stored temperature exceeds 60. -/
theorem alarm_of_reachable (ln : ℚ → ℚ) (hln : LogAccurate ln) (s : Sys)
    (h : Reachable ln s) :
    s.alarm_active = true ↔ (Dbl.fin 60).lt s.current_temperature = true := by
  induction h with
  | init => simp [init_state]
  | tick s adc_raw _ ih =>
    by_cases h0 : adc_raw = 0
    · rw [tick_skip ln adc_raw s ((v_out_le_zero_iff adc_raw).mpr h0)]
      exact ih
    · rw [tick_store ln adc_raw s h0]
      exact alarm_agrees _ (fun t ht => temp_no_gap ln hln adc_raw h0 t ht)
  | recv s p _ ih =>
    rw [(recv_frame p s).1, (recv_frame p s).2.2]
    exact ih

/-- With an accurate logarithm every reachable state satisfies `StateInv`. -/
theorem stateInv_of_reachable (ln : ℚ → ℚ) (hln : LogAccurate ln) (s : Sys)
    (h : Reachable ln s) : StateInv s :=
  ⟨(duty_range_of_reachable ln s h).1, (duty_range_of_reachable ln s h).2,
    alarm_of_reachable ln hln s h⟩

/-- With an accurate logarithm a tick on the sample 3155 raises the alarm. -/
theorem tick_3155_alarm (ln : ℚ → ℚ) (hln : LogAccurate ln) (s : Sys) :
    (update_temperature_system ln 3155 s).1.alarm_active = true := by
  obtain ⟨t, ht, _, hhi⟩ := temp_gap ln hln 3155 (by norm_num) (by norm_num)
  have h60 : (60 : ℚ) < t := lt_of_lt_of_le (by norm_num) (hhi (le_refl _))
  rw [tick_store ln 3155 s (by norm_num), ht]
  show (control_policy (.fin t)).2 = true
  rw [(control_policy_spec (.fin t)).2.2]
  simp [h60]

theorem ln_approx_accurate : LogAccurate ln_approx :=
  fun x h1 h2 => ln_approx_near x h1 h2

/-! ## Main results -/

/-- C1: for every temperature the control policy of `update_temperature_system`
yields a duty cycle between 0 and 100 and an alarm flag that is set exactly
when the temperature exceeds 60. -/
theorem control_policy_range_alarm (temp_c : Dbl) :
    (Dbl.fin 0).le (control_policy temp_c).1 = true ∧
    (control_policy temp_c).1.le (.fin 100) = true ∧
    ((control_policy temp_c).2 = true ↔ (Dbl.fin 60).lt temp_c = true) := by
  obtain ⟨h1, h2, h3⟩ := control_policy_spec temp_c
  exact ⟨h1, h2, by rw [h3]⟩

/-- C2: the control policy follows the table: duty 0 and no alarm below 40, the
ramp `(temp_c - 40) / 20 * 100` and no alarm on `[40, 60]`, duty 100 and alarm
above 60; its values at 40, 50, 60 and 60.0001 are `(0, false)`, `(50, false)`,
`(100, false)` and `(100, true)`. -/
theorem control_policy_table :
    (∀ t : Dbl, t.lt (.fin 40) = true → control_policy t = (.fin 0, false)) ∧
    (∀ t : Dbl, (Dbl.fin 40).le t = true → t.le (.fin 60) = true →
      control_policy t = (((t.sub (.fin 40)).div (.fin 20)).mul (.fin 100), false)) ∧
    (∀ q : ℚ, 40 ≤ q → q ≤ 60 → control_policy (.fin q) = (.fin ((q - 40) / 20 * 100), false)) ∧
    (∀ t : Dbl, (Dbl.fin 60).lt t = true → control_policy t = (.fin 100, true)) ∧
    control_policy (.fin 40) = (.fin 0, false) ∧
    control_policy (.fin 50) = (.fin 50, false) ∧
    control_policy (.fin 60) = (.fin 100, false) ∧
    control_policy (.fin 60.0001) = (.fin 100, true) := by
  refine ⟨?_, ?_, ?_, ?_, ?_, ?_, ?_, ?_⟩
  · intro t ht
    cases t with
    | fin q =>
      simp only [Dbl.lt_fin, decide_eq_true_eq] at ht
      have h1 : ¬ (40 ≤ q ∧ q ≤ 60) := fun h => absurd ht (not_lt.mpr h.1)
      have h2 : ¬ (60 < q) := by linarith
      rw [control_policy_fin, if_neg h1, if_neg h2]
    | pinf => simp [Dbl.lt] at ht
    | ninf => exact control_policy_ninf
    | nan => exact control_policy_nan
  · intro t h1 h2
    simp [control_policy, h1, h2]
  · intro q h1 h2
    rw [control_policy_fin, if_pos ⟨h1, h2⟩]
  · intro t ht
    cases t with
    | fin q =>
      simp only [Dbl.lt_fin, decide_eq_true_eq] at ht
      have h1 : ¬ (40 ≤ q ∧ q ≤ 60) := fun h => absurd ht (not_lt.mpr h.2)
      rw [control_policy_fin, if_neg h1, if_pos ht]
    | pinf => exact control_policy_pinf
    | ninf => simp [Dbl.lt] at ht
    | nan => simp [Dbl.lt] at ht
  · rw [control_policy_fin]; norm_num
  · rw [control_policy_fin]; norm_num
  · rw [control_policy_fin]; norm_num
  · rw [control_policy_fin]; norm_num

/-- The table of C2 applied at 39, 45 and 61 degrees. -/
theorem control_policy_table_witness :
    control_policy (.fin 39) = (.fin 0, false) ∧
    control_policy (.fin 45) = (.fin ((45 - 40) / 20 * 100), false) ∧
    control_policy (.fin 61) = (.fin 100, true) :=
  ⟨control_policy_table.1 (.fin 39) (by norm_num),
   control_policy_table.2.2.1 45 (by norm_num) (by norm_num),
   control_policy_table.2.2.2.1 (.fin 61) (by norm_num)⟩

/-- C3: a control tick whose sample gives a divider voltage that is not positive
returns without touching the state and without issuing a duty command. -/
theorem tick_sensor_error (ln : ℚ → ℚ) (s : Sys) (adc_raw : ℕ)
    (h : (v_out adc_raw).le (.fin 0) = true) :
    update_temperature_system ln adc_raw s = (s, []) ∧
    (update_temperature_system ln adc_raw s).1.current_temperature = s.current_temperature ∧
    (update_temperature_system ln adc_raw s).1.current_pwm_percent = s.current_pwm_percent ∧
    (update_temperature_system ln adc_raw s).1.alarm_active = s.alarm_active ∧
    (update_temperature_system ln adc_raw s).2 = [] := by
  rw [tick_skip ln adc_raw s h]
  exact ⟨rfl, rfl, rfl, rfl, rfl⟩

/-- The sample 0 is a sensor error: the tick changes nothing. -/
theorem tick_sensor_error_witness :
    (v_out 0).le (.fin 0) = true ∧
    update_temperature_system (fun _ => 0) 0 init_state = (init_state, []) :=
  ⟨(v_out_le_zero_iff 0).mpr rfl,
   (tick_sensor_error (fun _ => 0) init_state 0 ((v_out_le_zero_iff 0).mpr rfl)).1⟩

/-- Among the samples `0 .. 4095` only the full-scale sample gives `log` an
argument that is not positive. -/
theorem nonpositive_log_arg_only_full_scale (adc_raw : ℕ) (hrange : adc_raw ≤ 4095)
    (harg : ((r_ntc_of (v_out adc_raw)).div (.fin R0)).le (.fin 0) = true) :
    adc_raw = 4095 := by
  have h0 : adc_raw ≠ 0 := by
    rintro rfl
    have h33 : (3.3 : ℚ) ≠ 0 := by norm_num
    have hpos : (0 : ℚ) < 3.3 := by norm_num
    simp [v_out_eq, r_ntc_of, Dbl.div, Dbl.sub, Dbl.neg, Dbl.add, Dbl.mul, Dbl.signedInf,
      Dbl.le, VCC, R_FIXED, R0, h33, hpos] at harg
  rw [log_arg_eq adc_raw h0] at harg
  simp only [Dbl.le_fin, decide_eq_true_eq] at harg
  have hpos : (0 : ℚ) < (adc_raw : ℚ) := by exact_mod_cast Nat.pos_of_ne_zero h0
  have h1 : (4095 : ℚ) / adc_raw ≤ 1 := by linarith
  rw [div_le_one hpos] at h1
  have h2 : 4095 ≤ adc_raw := by exact_mod_cast h1
  omega

/-- C4: the code does not reject the full-scale sample.  On the sample 4095
the argument of `log` is zero, which is not positive, and the tick, whatever
the prior state, stores the `float` nearest to -273.15 as temperature, the duty
cycle 0 and a cleared alarm flag and issues the duty command of level 0, where
the claim requires the reading to be rejected and the state to stay as it was:
started in the initial state, the tick changes the state. -/
theorem full_scale_sample_not_rejected (ln : ℚ → ℚ) (s : Sys) :
    ((r_ntc_of (v_out 4095)).div (.fin R0)).le (.fin 0) = true ∧
    update_temperature_system ln 4095 s =
      ({ s with current_temperature := .fin (-8950579 / 32768),
                current_pwm_percent := .fin 0, alarm_active := false },
        [.pwm_set_gpio_level 16 0]) ∧
    (update_temperature_system ln 4095 init_state).1 ≠ init_state := by
  have harg := log_arg_eq 4095 (by norm_num)
  have hpol : control_policy (.fin (-273.15)) = (.fin 0, false) := by
    rw [control_policy_fin]; norm_num
  have hstore : ∀ s' : Sys, update_temperature_system ln 4095 s' =
      ({ s' with current_temperature := .fin (-8950579 / 32768),
                 current_pwm_percent := .fin 0, alarm_active := false },
        [.pwm_set_gpio_level 16 0]) := by
    intro s'
    rw [tick_store ln 4095 s' (by norm_num), temp_c_full_scale, hpol, toFloat_abs_zero,
      toFloat_zero, set_pwm_percent_zero]
  refine ⟨?_, hstore s, ?_⟩
  · rw [harg]; norm_num
  · rw [hstore init_state]
    simp only [init_state, ne_eq, Sys.mk.injEq, Dbl.fin.injEq, and_true, not_and]
    norm_num

/-- C5 fails as stated: over the real numbers the samples 1 and 2 lie in
`1 .. 4094`, and the temperature of the larger sample is not the smaller one. -/
theorem temp_c_real_not_decreasing :
    1 ≤ 1 ∧ 1 < 2 ∧ 2 ≤ 4094 ∧ ¬ (temp_c_real 2 < temp_c_real 1) :=
  ⟨le_refl _, by norm_num, by norm_num,
   not_lt.mpr (le_of_lt (temp_c_real_lt 1 2 (le_refl _) (by norm_num) (by norm_num)))⟩

/-- C5, amended: over the real numbers the temperature is strictly increasing
in the sample on `1 .. 4094`. -/
theorem temp_c_real_strictly_increasing (a b : ℕ) (h1 : 1 ≤ a) (hab : a < b) (h2 : b ≤ 4094) :
    temp_c_real a < temp_c_real b :=
  temp_c_real_lt a b h1 hab h2

/-- The amended C5 at the samples 1 and 2. -/
theorem temp_c_real_strictly_increasing_witness : temp_c_real 1 < temp_c_real 2 :=
  temp_c_real_strictly_increasing 1 2 (le_refl _) (by norm_num) (by norm_num)

/-- C6: in every state reached from the initial state by control ticks and
receive callbacks, with any samples and any payloads, the duty cycle lies
between 0 and 100, and, the `log` of the platform being within 1/10000 of the
natural logarithm, the alarm flag is set exactly when the stored temperature
exceeds 60. -/
theorem reachable_invariant (ln : ℚ → ℚ) (s : Sys) (h : Reachable ln s) :
    (Dbl.fin 0).le s.current_pwm_percent = true ∧
    s.current_pwm_percent.le (.fin 100) = true ∧
    (LogAccurate ln →
      (s.alarm_active = true ↔ (Dbl.fin 60).lt s.current_temperature = true)) :=
  ⟨(duty_range_of_reachable ln s h).1, (duty_range_of_reachable ln s h).2,
    fun hln => alarm_of_reachable ln hln s h⟩

/-- The invariant of C6, with the logarithm `ln_approx`, after a tick on the
sample 3155 and a request; that tick raises the alarm. -/
theorem reachable_invariant_witness :
    LogAccurate ln_approx ∧
    (Dbl.fin 0).le (tcp_server_recv (some GET_WIFI_ON)
      (update_temperature_system ln_approx 3155 init_state).1).1.current_pwm_percent = true ∧
    (tcp_server_recv (some GET_WIFI_ON)
      (update_temperature_system ln_approx 3155 init_state).1).1.current_pwm_percent.le
        (.fin 100) = true ∧
    ((tcp_server_recv (some GET_WIFI_ON)
      (update_temperature_system ln_approx 3155 init_state).1).1.alarm_active = true ↔
     (Dbl.fin 60).lt (tcp_server_recv (some GET_WIFI_ON)
      (update_temperature_system ln_approx 3155 init_state).1).1.current_temperature = true) ∧
    (update_temperature_system ln_approx 3155 init_state).1.alarm_active = true :=
  have h := reachable_invariant ln_approx _
    (Reachable.recv _ (some GET_WIFI_ON) (Reachable.tick _ 3155 Reachable.init))
  ⟨ln_approx_accurate, h.1, h.2.1, h.2.2 ln_approx_accurate,
    tick_3155_alarm ln_approx ln_approx_accurate init_state⟩

/-- C7 fails as stated: the first line of the payload made of a `NUL` byte
followed by `GET /wifi_on` contains the command, yet the handler does not drive
the Wi-Fi LED, because `strstr` stops at the `NUL`. -/
theorem wifi_on_behind_NUL_ignored :
    List.IsInfix GET_WIFI_ON (firstLine (NUL :: GET_WIFI_ON)) ∧
    tcp_server_recv (some (NUL :: GET_WIFI_ON)) init_state =
      (init_state, [.tcp_write (render init_state), .tcp_output, .pbuf_free]) ∧
    (tcp_server_recv (some (NUL :: GET_WIFI_ON)) init_state).1.wifi_led = false :=
  have h : tcp_server_recv (some (NUL :: GET_WIFI_ON)) init_state =
      (init_state, [.tcp_write (render init_state), .tcp_output, .pbuf_free]) :=
    recv_other init_state (NUL :: GET_WIFI_ON) (by decide) (by decide)
  ⟨by decide, h, by rw [h]; rfl⟩

/-- C7, amended: for every payload whose request string (the bytes before the
first `NUL`) contains `GET /wifi_on` in its first line, and every prior state,
the handler drives the Wi-Fi LED high and leaves the temperature, the duty
cycle and the alarm flag unchanged. -/
theorem recv_wifi_on_first_line (s : Sys) (payload : List Char)
    (h : List.IsInfix GET_WIFI_ON (firstLine (c_str payload))) :
    (tcp_server_recv (some payload) s).2 =
      [.cyw43_arch_gpio_put true, .tcp_write (render s), .tcp_output, .pbuf_free] ∧
    (tcp_server_recv (some payload) s).1.wifi_led = true ∧
    (tcp_server_recv (some payload) s).1.current_temperature = s.current_temperature ∧
    (tcp_server_recv (some payload) s).1.current_pwm_percent = s.current_pwm_percent ∧
    (tcp_server_recv (some payload) s).1.alarm_active = s.alarm_active := by
  rw [recv_wifi_on s payload (h.trans (firstLine_within _))]
  exact ⟨rfl, rfl, rfl, rfl, rfl⟩

/-- The amended C7 on the request `GET /wifi_on HTTP/1.1`. -/
theorem recv_wifi_on_first_line_witness :
    (tcp_server_recv (some "GET /wifi_on HTTP/1.1\r\n\r\n".toList) init_state).2 =
      [.cyw43_arch_gpio_put true, .tcp_write (render init_state), .tcp_output, .pbuf_free] ∧
    (tcp_server_recv (some "GET /wifi_on HTTP/1.1\r\n\r\n".toList) init_state).1.wifi_led = true :=
  have h := recv_wifi_on_first_line init_state "GET /wifi_on HTTP/1.1\r\n\r\n".toList (by decide)
  ⟨h.1, h.2.1⟩

/-- C8: the colours of the page follow the table on the stored temperature
(blue below 20, green on `[20, 40)`, orange on `[40, 60)`, red from 60), and the
alarm banner is on the page exactly when the alarm flag is set; in a state that
satisfies the invariant of the data model, 25 degrees give the green band
without banner and 65 degrees the red band with the banner. -/
theorem render_colour_band_and_banner (s : Sys) :
    (s.current_temperature.lt (.fin 20) = true →
      ((render s).bg_color, (render s).temp_color) = ("#e6f3ff", "#0066cc")) ∧
    ((Dbl.fin 20).le s.current_temperature = true → s.current_temperature.lt (.fin 40) = true →
      ((render s).bg_color, (render s).temp_color) = ("#e6ffe6", "#00cc00")) ∧
    ((Dbl.fin 40).le s.current_temperature = true → s.current_temperature.lt (.fin 60) = true →
      ((render s).bg_color, (render s).temp_color) = ("#fff2e6", "#ff9900")) ∧
    ((Dbl.fin 60).le s.current_temperature = true →
      ((render s).bg_color, (render s).temp_color) = ("#ffe6e6", "#cc0000")) ∧
    ((render s).alarm_banner = ALARM_BANNER ↔ s.alarm_active = true) ∧
    ((render s).alarm_banner = "" ↔ s.alarm_active = false) ∧
    (StateInv s → s.current_temperature = .fin 25 →
      ((render s).bg_color, (render s).temp_color) = ("#e6ffe6", "#00cc00") ∧
      (render s).alarm_banner = "") ∧
    (StateInv s → s.current_temperature = .fin 65 →
      ((render s).bg_color, (render s).temp_color) = ("#ffe6e6", "#cc0000") ∧
      (render s).alarm_banner = ALARM_BANNER) := by
  obtain ⟨hb, hg, ho, hr⟩ := colours_table s.current_temperature
  have hne := alarm_banner_ne_empty
  refine ⟨hb, hg, ho, hr, ?_, ?_, ?_, ?_⟩
  · cases ha : s.alarm_active <;> simp [render, ha, hne.symm]
  · cases ha : s.alarm_active <;> simp [render, ha, hne]
  · intro hinv ht
    have halarm : s.alarm_active = false := by
      have h3 := hinv.2.2
      rw [ht] at h3
      cases ha : s.alarm_active
      · rfl
      · have := h3.mp ha
        norm_num at this
    refine ⟨?_, by simp [render, halarm]⟩
    show colours s.current_temperature = _
    rw [ht, colours_fin]
    norm_num
  · intro hinv ht
    have halarm : s.alarm_active = true := by
      have h3 := hinv.2.2
      rw [ht] at h3
      exact h3.mpr (by norm_num)
    refine ⟨?_, by simp [render, halarm]⟩
    show colours s.current_temperature = _
    rw [ht, colours_fin]
    norm_num

/-- The 65 degree case of C8 on a concrete state. -/
theorem render_colour_band_and_banner_witness :
    StateInv hot_state ∧
    (render hot_state).bg_color = "#ffe6e6" ∧
    (render hot_state).alarm_banner = ALARM_BANNER :=
  have hinv : StateInv hot_state := by
    norm_num [StateInv, hot_state]
  have h := (render_colour_band_and_banner hot_state).2.2.2.2.2.2.2 hinv rfl
  ⟨hinv, congrArg Prod.fst h.1, h.2⟩

/-- C9 fails as stated: the first line of this payload contains neither
command, yet the handler drives the Wi-Fi LED high, because `strstr` searches
the whole request string. -/
theorem wifi_on_in_later_line_matched :
    ¬ List.IsInfix GET_WIFI_ON (firstLine "GET / HTTP/1.1\r\nX: GET /wifi_on\r\n".toList) ∧
    ¬ List.IsInfix GET_WIFI_OFF (firstLine "GET / HTTP/1.1\r\nX: GET /wifi_on\r\n".toList) ∧
    (tcp_server_recv (some "GET / HTTP/1.1\r\nX: GET /wifi_on\r\n".toList) init_state).2 =
      [.cyw43_arch_gpio_put true, .tcp_write (render init_state), .tcp_output, .pbuf_free] ∧
    (tcp_server_recv (some "GET / HTTP/1.1\r\nX: GET /wifi_on\r\n".toList) init_state).1
      ≠ init_state := by
  have h := recv_wifi_on init_state "GET / HTTP/1.1\r\nX: GET /wifi_on\r\n".toList (by decide)
  refine ⟨by decide, by decide, by rw [h], ?_⟩
  rw [h]
  simp [init_state]

/-- C9, amended: for every payload whose request string (the bytes before the
first `NUL`) contains neither `GET /wifi_on` nor `GET /wifi_off` anywhere, the
handler changes no state, does not drive the Wi-Fi LED and returns the status
page of the current state. -/
theorem recv_no_command (s : Sys) (payload : List Char)
    (hon : ¬ List.IsInfix GET_WIFI_ON (c_str payload))
    (hoff : ¬ List.IsInfix GET_WIFI_OFF (c_str payload)) :
    (tcp_server_recv (some payload) s).1 = s ∧
    (tcp_server_recv (some payload) s).2 = [.tcp_write (render s), .tcp_output, .pbuf_free] ∧
    (∀ b : Bool, Action.cyw43_arch_gpio_put b ∉ (tcp_server_recv (some payload) s).2) := by
  rw [recv_other s payload hon hoff]
  refine ⟨rfl, rfl, ?_⟩
  intro b
  simp

/-- The amended C9 on the request `GET / HTTP/1.1`. -/
theorem recv_no_command_witness :
    (tcp_server_recv (some "GET / HTTP/1.1\r\n\r\n".toList) init_state).1 = init_state ∧
    (tcp_server_recv (some "GET / HTTP/1.1\r\n\r\n".toList) init_state).2 =
      [.tcp_write (render init_state), .tcp_output, .pbuf_free] :=
  have h := recv_no_command init_state "GET / HTTP/1.1\r\n\r\n".toList (by decide) (by decide)
  ⟨h.1, h.2.1⟩

/-- C10 fails as stated: on the non-empty payload `GET /favicon.ico` the handler
writes and flushes the response and frees the pbuf, and does not close the
connection. -/
theorem response_without_close :
    "GET /favicon.ico HTTP/1.1\r\n\r\n".toList ≠ [] ∧
    (tcp_server_recv (some "GET /favicon.ico HTTP/1.1\r\n\r\n".toList) init_state).2 =
      [.tcp_write (render init_state), .tcp_output, .pbuf_free] ∧
    Action.tcp_close ∉
      (tcp_server_recv (some "GET /favicon.ico HTTP/1.1\r\n\r\n".toList) init_state).2 := by
  have h := recv_other init_state "GET /favicon.ico HTTP/1.1\r\n\r\n".toList
    (by decide) (by decide)
  refine ⟨by decide, by rw [h], ?_⟩
  rw [h]
  simp

/-- C10, amended: on every callback that carries a payload the handler, after
at most one call that drives the Wi-Fi LED, writes the response, flushes it and
frees the pbuf, and does not close the connection; it closes the connection
only on the callback with a null pbuf. -/
theorem recv_transport_actions (s : Sys) (payload : List Char) :
    (∃ led : List Action,
      (led = [] ∨ led = [.cyw43_arch_gpio_put true] ∨ led = [.cyw43_arch_gpio_put false]) ∧
      (tcp_server_recv (some payload) s).2 =
        led ++ [.tcp_write (render s), .tcp_output, .pbuf_free]) ∧
    Action.tcp_close ∉ (tcp_server_recv (some payload) s).2 ∧
    tcp_server_recv none s = (s, [.tcp_close, .tcp_recv_null]) := by
  obtain ⟨led, hled, hact⟩ := recv_actions s payload
  refine ⟨⟨led, hled, hact⟩, ?_, rfl⟩
  rw [hact]
  rcases hled with h | h | h <;> simp [h]

end TempWeb
